import Mathlib

/-!
Verification development for the StrongBodyAI bulk-email server.

The definitions below are a shallow embedding of the queued dispatch
engine of the repository:

* `EmailConfig` / `getNextAvailableAccount` / `incrementAccountUsage`
  embed `src/config/emailConfig.js` (the account pool with per-account
  daily quotas and the rotation cursor `currentAccountIndex`);
* `sendSingleEmail` embeds `src/services/emailService.js`
  (`EmailService.sendSingleEmail`), with the nodemailer transport and
  the template engine abstracted as environment functions, exactly as
  the design treats them (external collaborators);
* the `UnifiedQueueService` memory-queue path (`processMemoryJob`,
  `processBulkEmailWithProgress`, `addSingleEmailJob`, `getJobStatus`,
  `cancelJob`, `pauseQueue`/`resumeQueue`) is embedded as explicit
  state passing over a `QueueState`.

JavaScript `Date` values are abstracted as natural numbers (`today` is
the value of `new Date().toDateString()`, `now` a timestamp); machine
strings stay `String`.  Exceptions become `Except String`; a JS
function that mutates singleton state becomes a Lean function that
also returns the updated state.
-/

namespace StrongBody

/-! ## Account pool: `src/config/emailConfig.js` -/

/-- One configured outbound account (`this.accounts` entries built in
`loadEmailAccounts`): `{ id, email, transporter, dailyCount,
lastResetDate }`.  The nodemailer transporter lives in the
environment, not in the record. -/
structure Account where
  id : Nat
  email : String
  dailyCount : Nat
  lastResetDate : Nat
deriving Repr, DecidableEq

/-- The mutable singleton state of `EmailConfig`: the account list and
the rotation cursor `this.currentAccountIndex`. -/
structure EmailConfig where
  accounts : List Account
  currentAccountIndex : Nat
deriving Repr, DecidableEq

/-- The lazy daily reset applied to one account inside
`getNextAvailableAccount`:
`if (account.lastResetDate !== today) { account.dailyCount = 0;
account.lastResetDate = today; }`. -/
def resetDaily (today : Nat) (a : Account) : Account :=
  if a.lastResetDate ≠ today then { a with dailyCount := 0, lastResetDate := today } else a

/-- Outcome of the scanning `while` loop of `getNextAvailableAccount`:
either an eligible account together with the final value of the
cursor, or quota exhaustion after a full rotation, or an
out-of-range cursor (in JS this would be a `TypeError` on reading
`account.dailyCount` of `undefined`; unreachable from the real
operations, which keep the cursor below the pool size). -/
inductive ScanResult where
  | found (a : Account) (cursor : Nat)
  | exhausted
  | badIndex
deriving Repr, DecidableEq

/-- The `while (attempts < this.accounts.length)` loop of
`getNextAvailableAccount`: look at the account under the cursor; if
its `dailyCount` is below the daily limit return it (the cursor is
NOT advanced in this case); otherwise advance the cursor by one
modulo the pool size and continue.  `fuel` is the remaining number of
loop iterations (`this.accounts.length - attempts`). -/
def scanAccounts (accounts : List Account) (limit : Nat) : Nat → Nat → ScanResult
  | _, 0 => .exhausted
  | idx, fuel + 1 =>
    match accounts.get? idx with
    | none => .badIndex
    | some a =>
      if a.dailyCount < limit then .found a idx
      else scanAccounts accounts limit ((idx + 1) % accounts.length) fuel

/-- `EmailConfig.getNextAvailableAccount`.  Returns the selected
account or the thrown error message, together with the updated
singleton state (the lazy daily resets and any cursor movement
persist even when the method throws).  `today` stands for
`new Date().toDateString()` and `limit` for
`DAILY_EMAIL_LIMIT_PER_ACCOUNT` (450 by default). -/
def getNextAvailableAccount (today limit : Nat) (cfg : EmailConfig) :
    Except String Account × EmailConfig :=
  if cfg.accounts.length = 0 then
    (.error "No email accounts configured. Please configure email accounts in your .env file.",
     cfg)
  else
    match scanAccounts (cfg.accounts.map (resetDaily today)) limit cfg.currentAccountIndex
        (cfg.accounts.map (resetDaily today)).length with
    | .found a idx => (.ok a, ⟨cfg.accounts.map (resetDaily today), idx⟩)
    | .exhausted =>
        -- a full rotation of `accounts.length` steps returns the cursor
        -- to its starting position ((c + N) % N = c for c < N)
        (.error "All email accounts have reached their daily sending limit",
         ⟨cfg.accounts.map (resetDaily today), cfg.currentAccountIndex⟩)
    | .badIndex =>
        (.error "TypeError: Cannot read properties of undefined",
         ⟨cfg.accounts.map (resetDaily today), cfg.currentAccountIndex⟩)

/-- Helper for `incrementAccountUsage`: JS
`this.accounts.find(acc => acc.id === accountId)` followed by
`account.dailyCount++` mutates the first account with the given id
and leaves the list unchanged when none matches. -/
def incrementUsage : List Account → Nat → List Account
  | [], _ => []
  | a :: rest, accountId =>
    if a.id = accountId then { a with dailyCount := a.dailyCount + 1 } :: rest
    else a :: incrementUsage rest accountId

/-- `EmailConfig.incrementAccountUsage(accountId)`. -/
def incrementAccountUsage (cfg : EmailConfig) (accountId : Nat) : EmailConfig :=
  { cfg with accounts := incrementUsage cfg.accounts accountId }

/-! ## Single-email send: `src/services/emailService.js` -/

/-- The payload handed to `sendSingleEmail` (`emailData`). -/
structure EmailData where
  toAddr : String
  subject : String
  html : Option String := none
  text : Option String := none
  senderName : Option String := none
  replyTo : Option String := none
  cc : Option String := none
  bcc : Option String := none
deriving Repr, DecidableEq

/-- The nodemailer `mailOptions` object built inside
`sendSingleEmail`. -/
structure MailOptions where
  fromAddr : String
  toAddr : String
  subject : String
  html : Option String
  text : Option String
  replyTo : Option String
  cc : Option String
  bcc : Option String
deriving Repr, DecidableEq

/-- `mailOptions` construction of `sendSingleEmail`, including the
`from` header `"<senderName>" <account.email>` with the
`'Bulk Email Sender'` default and the conditional `replyTo`/`cc`/`bcc`
fields. -/
def buildMailOptions (emailData : EmailData) (account : Account) : MailOptions :=
  { fromAddr := "\"" ++ (emailData.senderName.getD "Bulk Email Sender") ++ "\" <" ++ account.email ++ ">"
    toAddr := emailData.toAddr
    subject := emailData.subject
    html := match emailData.html with
      | some h => some h
      | none => emailData.text
    text := emailData.text
    replyTo := emailData.replyTo
    cc := emailData.cc
    bcc := emailData.bcc }

/-- The object returned by `sendSingleEmail`: on success
`{ success: true, messageId, recipient, senderAccount, timestamp }`,
on failure `{ success: false, recipient, error, timestamp }`. -/
structure SendOutcome where
  success : Bool
  messageId : Option String := none
  recipient : String
  senderAccount : Option String := none
  error : Option String := none
  timestamp : Nat
deriving Repr, DecidableEq

/-- A bulk recipient row (`{ email, ...data }`): the template data is
opaque to the engine, so it is kept abstract as a `Nat` handle. -/
structure Recipient where
  email : String
  data : Nat := 0
deriving Repr, DecidableEq

/-- A bulk template (subject/html/text strings); contents are opaque
to the dispatch engine. -/
structure EmailTemplate where
  subject : String
  html : Option String := none
  text : Option String := none
deriving Repr, DecidableEq

/-- Result of `personalizeEmail`: the compiled
`{ subject, html, text }`. -/
structure PersonalizedEmail where
  subject : String
  html : Option String := none
  text : Option String := none
deriving Repr, DecidableEq

/-- Options of a bulk job (`options.senderName`, `options.replyTo`). -/
structure BulkOptions where
  senderName : Option String := none
  replyTo : Option String := none
deriving Repr, DecidableEq

/-- The external collaborators and ambient values of one engine run:
`today`/`now` abstract the clock, `dailyLimit` the
`DAILY_EMAIL_LIMIT_PER_ACCOUNT` environment variable, `transport` the
nodemailer `transporter.sendMail` call (message id or thrown error),
and `render` the Handlebars-based `personalizeEmail` (compiled parts
or thrown error). -/
structure Env where
  today : Nat
  dailyLimit : Nat
  now : Nat
  transport : Account → MailOptions → Except String String
  render : EmailTemplate → Recipient → Except String PersonalizedEmail

/-- `EmailService.sendSingleEmail(emailData)`.  The whole body sits in
a `try { ... } catch (error) { return { success: false, ... } }`, so
every failure (no accounts configured, all quotas exhausted, transport
error) is converted into a `success: false` return value and the
function never throws.  On success `incrementAccountUsage` is called
exactly once. -/
def sendSingleEmail (env : Env) (cfg : EmailConfig) (emailData : EmailData) :
    SendOutcome × EmailConfig :=
  match getNextAvailableAccount env.today env.dailyLimit cfg with
  | (.error e, cfg') =>
      ({ success := false, recipient := emailData.toAddr, error := some e,
         timestamp := env.now }, cfg')
  | (.ok account, cfg') =>
      let mailOptions := buildMailOptions emailData account
      match env.transport account mailOptions with
      | .error e =>
          ({ success := false, recipient := emailData.toAddr, error := some e,
             timestamp := env.now }, cfg')
      | .ok messageId =>
          let cfg'' := incrementAccountUsage cfg' account.id
          ({ success := true, messageId := some messageId, recipient := emailData.toAddr,
             senderAccount := some account.email, timestamp := env.now }, cfg'')

/-! ## Unified queue service, memory backend (`UnifiedQueueService`) -/

/-- Job states of the memory queue
(`waiting -> active -> {completed, failed}`, with `active -> waiting`
as the retry loop-back). -/
inductive JobState where
  | waiting
  | active
  | completed
  | failed
deriving Repr, DecidableEq

/-- `job.state` rendered the way the strings appear in log and error
messages. -/
def JobState.asString : JobState → String
  | .waiting => "waiting"
  | .active => "active"
  | .completed => "completed"
  | .failed => "failed"

/-- `job.type` together with `job.data`: `'single-email'` with
`{ emailData }` or `'bulk-email'` with
`{ recipients, template, options }`. -/
inductive JobData where
  | single (emailData : EmailData)
  | bulk (recipients : List Recipient) (template : EmailTemplate) (options : BulkOptions)
deriving Repr, DecidableEq

/-- The aggregate built by `processBulkEmailWithProgress`:
`{ total, successful, failed, details }`. -/
structure BulkResults where
  total : Nat
  successful : Nat
  failed : Nat
  details : List SendOutcome
deriving Repr, DecidableEq

/-- `job.result`: a single-send outcome, a bulk aggregate, or the
`{ error: message }` object written on terminal failure (and by
`cancelJob`). -/
inductive JobResult where
  | single (r : SendOutcome)
  | bulk (r : BulkResults)
  | errorResult (message : String)
deriving Repr, DecidableEq

/-- A memory-queue job record as created by
`addSingleEmailJob`/`addBulkEmailJob`. -/
structure Job where
  id : Nat
  data : JobData
  state : JobState
  progress : Nat
  createdAt : Nat
  priority : Int
  attempts : Nat
  maxAttempts : Nat
  processedAt : Option Nat := none
  finishedAt : Option Nat := none
  result : Option JobResult := none
deriving Repr, DecidableEq

/-- The mutable state of `UnifiedQueueService` on the memory backend:
the `this.jobs` map (insertion-ordered association list), the id
counter, the waiting array `this.queue` (job records; in JS these are
references to the same objects held by the map — the embedding keeps
the two in sync at every mutation), the bounded terminal histories
(`this.completed`/`this.failed`, stored here as job ids), the
processing flag, and the `emailConfig` singleton the dispatched sends
mutate. -/
structure QueueState where
  jobs : List (Nat × Job)
  jobCounter : Nat
  queue : List Job
  completedHistory : List Nat
  failedHistory : List Nat
  maxHistory : Nat
  isProcessing : Bool
  cfg : EmailConfig
deriving Repr, DecidableEq

/-- `Map.prototype.get`. -/
def lookupJob (jobs : List (Nat × Job)) (jobId : Nat) : Option Job :=
  (jobs.find? (fun p => p.1 = jobId)).map (·.2)

/-- `Map.prototype.set`: overwrite in place, or append a new entry. -/
def setJob : List (Nat × Job) → Nat → Job → List (Nat × Job)
  | [], jobId, job => [(jobId, job)]
  | p :: rest, jobId, job =>
    if p.1 = jobId then (jobId, job) :: rest else p :: setJob rest jobId job

/-- `Map.prototype.delete`. -/
def deleteJob (jobs : List (Nat × Job)) (jobId : Nat) : List (Nat × Job) :=
  jobs.filter (fun p => p.1 ≠ jobId)

/-- The `findIndex`/`splice(index, 1)` pair of `cancelJob`: remove the
first queue entry with the given job id. -/
def removeFirstById : List Job → Nat → List Job
  | [], _ => []
  | j :: rest, jobId => if j.id = jobId then rest else j :: removeFirstById rest jobId

/-- The comparator `(a, b) => b.priority - a.priority` of the queue
sort, read as a boolean "a may come before b". -/
def sortLE (a b : Job) : Bool := decide (b.priority ≤ a.priority)

/-- Stable insertion of one job into an already sorted list: `a` goes
in front of the first entry it may precede. -/
def insertJob (a : Job) : List Job → List Job
  | [] => [a]
  | b :: l => if sortLE a b then a :: b :: l else b :: insertJob a l

/-- `this.queue.sort((a, b) => b.priority - a.priority)`:
`Array.prototype.sort` is stable (ES2019), and a stable sort's output
is determined by the comparator alone, so the embedding uses a stable
insertion sort by descending priority. -/
def sortQueue : List Job → List Job
  | [] => []
  | a :: l => insertJob a (sortQueue l)

/-- `unshift` followed by `if (length > maxHistory) pop()`: prepend
the newest terminal job and drop the oldest when over the bound. -/
def pushHistory (jobId : Nat) (history : List Nat) (maxHistory : Nat) : List Nat :=
  let history' := jobId :: history
  if maxHistory < history'.length then history'.dropLast else history'

/-- `Math.round(((i + 1) / recipients.length) * 100)` for nonnegative
rationals: round half up, as `⌊(100k/n) + 1/2⌋ = (200k + n) / (2n)`
in integer division. -/
def jsRound100 (k n : Nat) : Nat := (200 * k + n) / (2 * n)

/-- The accumulator threaded through the per-recipient loop of
`processBulkEmailWithProgress`: the `results` object, the current
value of the `job.progress` field (a number on the memory backend),
and the `emailConfig` singleton. -/
structure BulkState where
  results : BulkResults
  jobProgress : Nat
  cfg : EmailConfig
deriving Repr, DecidableEq

/-- The `catch` branch of the per-recipient loop:
`results.failed++` and
`results.details.push({ success:false, recipient, error, timestamp })`. -/
def pushFailDetail (r : BulkResults) (email errMsg : String) (now : Nat) : BulkResults :=
  { r with
    failed := r.failed + 1
    details := r.details ++
      [{ success := false, recipient := email, error := some errMsg, timestamp := now }] }

/-- One iteration of the `for (let i = 0; ...)` loop of
`processBulkEmailWithProgress` on the memory backend: personalize
(`render` throw lands in the catch), send (never throws), count and
record the outcome, then update progress.  The progress update
executes `if (job.progress) { job.progress(progress); } else {
job.progress = progress; }`; on the memory backend `job.progress` is
a number, so once it is nonzero the truthy branch calls it as a
function and the resulting TypeError is handled by the same
per-recipient catch — after the real outcome was already counted and
recorded.  The inter-send `sleep` has no observable state effect. -/
def bulkStep (env : Env) (template : EmailTemplate) (options : BulkOptions) (n : Nat)
    (st : BulkState) (p : Nat × Recipient) : BulkState :=
  let (i, recipient) := p
  match env.render template recipient with
  | .error e =>
      { st with results := pushFailDetail st.results recipient.email e env.now }
  | .ok personalized =>
      let emailData : EmailData :=
        { toAddr := recipient.email
          subject := personalized.subject
          html := personalized.html
          text := personalized.text
          senderName := options.senderName
          replyTo := options.replyTo }
      let (result, cfg') := sendSingleEmail env st.cfg emailData
      let results1 :=
        if result.success then { st.results with successful := st.results.successful + 1 }
        else { st.results with failed := st.results.failed + 1 }
      let results2 := { results1 with details := results1.details ++ [result] }
      let progress := jsRound100 (i + 1) n
      if st.jobProgress ≠ 0 then
        { results := pushFailDetail results2 recipient.email
            "job.progress is not a function" env.now
          jobProgress := st.jobProgress
          cfg := cfg' }
      else
        { results := results2, jobProgress := progress, cfg := cfg' }

/-- `processBulkEmailWithProgress(job, recipients, template, options)`
on the memory backend: fold the per-recipient step over the recipient
list (in list order), starting from zeroed counters and the current
`job.progress` value.  Returns the `results` object together with the
final `job.progress` and `emailConfig` states. -/
def processBulkEmailWithProgress (env : Env) (jobProgress : Nat) (cfg : EmailConfig)
    (recipients : List Recipient) (template : EmailTemplate) (options : BulkOptions) :
    BulkResults × Nat × EmailConfig :=
  let init : BulkState :=
    { results := { total := recipients.length, successful := 0, failed := 0, details := [] }
      jobProgress := jobProgress
      cfg := cfg }
  let final := recipients.enum.foldl (bulkStep env template options recipients.length) init
  (final.results, final.jobProgress, final.cfg)

/-- Result of running the `try` body of `processMemoryJob` (up to the
`job.state = 'completed'` line): the value of `result` or the thrown
error, plus the values the body left in `job.progress` and in the
`emailConfig` singleton (in JS those mutations persist even when the
body throws). -/
structure BodyOutcome where
  result : Except String JobResult
  progress : Nat
  cfg : EmailConfig

/-- The type-specific dispatch inside `processMemoryJob`'s `try`
block: `single-email` calls `emailService.sendSingleEmail` (which
never throws); `bulk-email` first sets `job.progress = 0` and then
runs `processBulkEmailWithProgress` (whose per-recipient `try/catch`
swallows every per-recipient error). -/
def runJobBody (env : Env) (cfg : EmailConfig) (job : Job) : BodyOutcome :=
  match job.data with
  | .single emailData =>
      let (r, cfg') := sendSingleEmail env cfg emailData
      { result := .ok (.single r), progress := job.progress, cfg := cfg' }
  | .bulk recipients template options =>
      let (results, progress, cfg') :=
        processBulkEmailWithProgress env 0 cfg recipients template options
      { result := .ok (.bulk results), progress := progress, cfg := cfg' }

/-- `processMemoryJob(job)` with the body's outcome made explicit
(the body is the only part that can throw; everything around it is
the state machine of lines 132–181 of the queue service): mark
`active`, stamp `processedAt`, increment `attempts`, run the body; on
a normal return mark `completed`, `progress = 100`, store the result,
stamp `finishedAt` and unshift into the bounded completed history; on
a throw consult the retry policy — while `attempts < maxAttempts`
mark `waiting` and `this.queue.push(job)` (a plain push to the back
of the whole array, with no re-sort), otherwise mark `failed`, store
`{ error: message }`, stamp `finishedAt` and unshift into the bounded
failed history. -/
def processJobWith (outcome : BodyOutcome) (now : Nat) (q : QueueState) (job0 : Job) :
    QueueState :=
  let job1 := { job0 with
    state := JobState.active
    processedAt := some now
    attempts := job0.attempts + 1 }
  match outcome.result with
  | .ok result =>
      let job2 := { job1 with
        state := JobState.completed
        progress := 100
        result := some result
        finishedAt := some now }
      { q with
        jobs := setJob q.jobs job2.id job2
        completedHistory := pushHistory job2.id q.completedHistory q.maxHistory
        cfg := outcome.cfg }
  | .error e =>
      if job1.attempts < job1.maxAttempts then
        let job2 := { job1 with state := JobState.waiting, progress := outcome.progress }
        { q with
          jobs := setJob q.jobs job2.id job2
          queue := q.queue ++ [job2]
          cfg := outcome.cfg }
      else
        let job2 := { job1 with
          state := JobState.failed
          progress := outcome.progress
          result := some (.errorResult e)
          finishedAt := some now }
        { q with
          jobs := setJob q.jobs job2.id job2
          failedHistory := pushHistory job2.id q.failedHistory q.maxHistory
          cfg := outcome.cfg }

/-- `processMemoryJob(job)` proper: the generic state machine applied
to the real body. -/
def processMemoryJob (env : Env) (q : QueueState) (job : Job) : QueueState :=
  processJobWith (runJobBody env q.cfg job) env.now q job

/-- One iteration of the `while (this.isProcessing)` loop of
`startMemoryQueueProcessing` with a nonempty queue in scope: shift
the front job, skip it unless its state is `'waiting'`, else process
it.  (An empty queue just sleeps.)  The body the processing uses is a
parameter so that the same state machine can be analysed under
arbitrary body outcomes; `workerStepReal` instantiates it with the
real dispatch. -/
def workerStep (body : EmailConfig → Job → BodyOutcome) (now : Nat) (q : QueueState) :
    QueueState :=
  match q.queue with
  | [] => q
  | job :: rest =>
      let q1 := { q with queue := rest }
      if job.state = JobState.waiting then processJobWith (body q1.cfg job) now q1 job
      else q1

/-- The worker iteration with the real job body. -/
def workerStepReal (env : Env) (q : QueueState) : QueueState :=
  workerStep (fun cfg job => runJobBody env cfg job) env.now q

/-- The memory branch of `addSingleEmailJob(emailData, options)`: a
fresh id from `++this.jobCounter`, a `waiting` record with
`attempts: 0, maxAttempts: 3` and `priority: options.priority || 0`,
inserted into the map, pushed onto the queue, then
`this.queue.sort((a, b) => b.priority - a.priority)`. -/
def addSingleEmailJob (emailData : EmailData) (priority : Int) (now : Nat)
    (q : QueueState) : Nat × QueueState :=
  let jobId := q.jobCounter + 1
  let job : Job :=
    { id := jobId
      data := .single emailData
      state := JobState.waiting
      progress := 0
      createdAt := now
      priority := priority
      attempts := 0
      maxAttempts := 3 }
  (jobId,
   { q with
     jobCounter := jobId
     jobs := setJob q.jobs jobId job
     queue := sortQueue (q.queue ++ [job]) })

/-- The memory branch of
`addBulkEmailJob(recipients, template, options)`: identical record
shape with `type: 'bulk-email'`. -/
def addBulkEmailJob (recipients : List Recipient) (template : EmailTemplate)
    (options : BulkOptions) (priority : Int) (now : Nat) (q : QueueState) :
    Nat × QueueState :=
  let jobId := q.jobCounter + 1
  let job : Job :=
    { id := jobId
      data := .bulk recipients template options
      state := JobState.waiting
      progress := 0
      createdAt := now
      priority := priority
      attempts := 0
      maxAttempts := 3 }
  (jobId,
   { q with
     jobCounter := jobId
     jobs := setJob q.jobs jobId job
     queue := sortQueue (q.queue ++ [job]) })

/-- The status record returned by the memory branch of
`getJobStatus`. -/
structure JobStatus where
  id : Nat
  state : JobState
  progress : Nat
  result : Option JobResult
  createdAt : Nat
  processedAt : Option Nat
  finishedAt : Option Nat
  attempts : Nat
  maxAttempts : Nat
deriving Repr, DecidableEq

/-- The memory branch of `getJobStatus(jobId)`: `this.jobs.get(id)`,
throwing `Job <id> not found` when the map has no entry. -/
def getJobStatus (q : QueueState) (jobId : Nat) : Except String JobStatus :=
  match lookupJob q.jobs jobId with
  | none => .error ("Job " ++ toString jobId ++ " not found")
  | some job =>
      .ok { id := jobId
            state := job.state
            progress := job.progress
            result := job.result
            createdAt := job.createdAt
            processedAt := job.processedAt
            finishedAt := job.finishedAt
            attempts := job.attempts
            maxAttempts := job.maxAttempts }

/-- The stats record of the memory branch of `getQueueStats`. -/
structure QueueStats where
  waiting : Nat
  active : Nat
  completed : Nat
  failed : Nat
  total : Nat
  backendType : String
deriving Repr, DecidableEq

/-- The memory branch of `getQueueStats()`: count `waiting`/`active`
records inside `this.queue` and take the history lengths. -/
def getQueueStats (q : QueueState) : QueueStats :=
  let waiting := (q.queue.filter (fun j => j.state = JobState.waiting)).length
  let active := (q.queue.filter (fun j => j.state = JobState.active)).length
  { waiting := waiting
    active := active
    completed := q.completedHistory.length
    failed := q.failedHistory.length
    total := waiting + active + q.completedHistory.length + q.failedHistory.length
    backendType := "memory" }

/-- The memory branch of `cancelJob(jobId)`.  Unknown id: throw
`Job <id> not found`.  A `waiting` job: splice it out of the queue,
set `state = 'failed'` and `result = { error: 'Job cancelled' }` on
the record, and then `this.jobs.delete(job.id)` — the record leaves
the store, so the terminal marking is unobservable afterwards; the
method returns `true`.  Any other state: throw
`Cannot cancel job <id> in state <state>`. -/
def cancelJob (q : QueueState) (jobId : Nat) : Except String Bool × QueueState :=
  match lookupJob q.jobs jobId with
  | none => (.error ("Job " ++ toString jobId ++ " not found"), q)
  | some job =>
      if job.state = JobState.waiting then
        (.ok true,
         { q with
           queue := removeFirstById q.queue job.id
           jobs := deleteJob q.jobs job.id })
      else
        (.error ("Cannot cancel job " ++ toString jobId ++ " in state "
          ++ job.state.asString), q)

/-- `pauseQueue()` on the memory backend: `this.isProcessing = false`
(the running worker finishes its current iteration and exits when it
next evaluates the loop condition). -/
def pauseQueue (q : QueueState) : QueueState := { q with isProcessing := false }

/-! ## Operation sequences over the queue service -/

/-- The externally driveable operations of the memory queue: enqueue
a single or bulk job, let the worker run one loop iteration, or
cancel a job.  (Status and stats reads do not change state.) -/
inductive QueueOp where
  | addSingle (emailData : EmailData) (priority : Int) (now : Nat)
  | addBulk (recipients : List Recipient) (template : EmailTemplate)
      (options : BulkOptions) (priority : Int) (now : Nat)
  | work (now : Nat)
  | cancel (jobId : Nat)

/-- Apply one operation, with the job body kept parametric (see
`workerStep`). -/
def applyOp (body : EmailConfig → Job → BodyOutcome) (q : QueueState) :
    QueueOp → QueueState
  | .addSingle d p now => (addSingleEmailJob d p now q).2
  | .addBulk r t o p now => (addBulkEmailJob r t o p now q).2
  | .work now => workerStep body now q
  | .cancel jobId => (cancelJob q jobId).2

/-- Run a sequence of operations. -/
def runQueue (body : EmailConfig → Job → BodyOutcome) (q : QueueState)
    (ops : List QueueOp) : QueueState :=
  ops.foldl (applyOp body) q

/-- The queue service state right after `initializeMemoryQueue` on a
fresh instance (empty map, counter 0, empty queue and histories,
`maxHistory = 100`, processor running), over a given account pool
state. -/
def initialQueueState (cfg : EmailConfig) : QueueState :=
  { jobs := []
    jobCounter := 0
    queue := []
    completedHistory := []
    failedHistory := []
    maxHistory := 100
    isProcessing := true
    cfg := cfg }

/-- A sequence of direct `sendSingleEmail` calls threading the
`emailConfig` singleton (the per-send transport outcome comes from
`env.transport`). -/
def runSends (env : Env) (cfg : EmailConfig) : List EmailData → EmailConfig
  | [] => cfg
  | d :: rest => runSends env (sendSingleEmail env cfg d).2 rest

/-! ## The worker lifecycle under pause/resume

`startMemoryQueueProcessing` is an `async` JS function: it runs on
the single-threaded event loop and can only be interleaved with other
code at its `await` points (`sleep` and `processMemoryJob`).  The
guard `if (this.isProcessing) return` together with
`this.isProcessing = true` execute atomically before the first
`await`, as does `pauseQueue`'s `this.isProcessing = false` and
`resumeQueue`'s `if (!this.isProcessing) this.startMemoryQueueProcessing()`.

The transition system below captures exactly this: each live worker
task is either suspended just before re-evaluating the
`while (this.isProcessing)` condition (`atCheck`) or suspended at an
`await` inside the loop body (`inBody`). -/

/-- Where a live `startMemoryQueueProcessing` task is suspended. -/
inductive WorkerPhase where
  | atCheck
  | inBody
deriving Repr, DecidableEq

/-- The worker-relevant state: the `isProcessing` flag and the live
worker tasks. -/
structure WorkerSys where
  isProcessing : Bool
  workers : List WorkerPhase
deriving Repr, DecidableEq

/-- Events: a `pauseQueue()` call, a `resumeQueue()` call, or the
event loop advancing worker `i` past its next suspension point. -/
inductive SysEvent where
  | pause
  | resume
  | stepWorker (i : Nat)
deriving Repr, DecidableEq

/-- One event.  `pause` clears the flag.  `resume` spawns a fresh
worker task (and sets the flag) only when the flag is clear — the
double guard of `resumeQueue` and `startMemoryQueueProcessing`.  A
worker stepped at the condition either enters the body (flag set) or
terminates (flag clear); a worker stepped inside the body returns to
the condition. -/
def stepSys (s : WorkerSys) : SysEvent → WorkerSys
  | .pause => { s with isProcessing := false }
  | .resume =>
      if s.isProcessing then s
      else { isProcessing := true, workers := s.workers ++ [WorkerPhase.atCheck] }
  | .stepWorker i =>
      match s.workers.get? i with
      | none => s
      | some WorkerPhase.atCheck =>
          if s.isProcessing then { s with workers := s.workers.set i WorkerPhase.inBody }
          else { s with workers := s.workers.eraseIdx i }
      | some WorkerPhase.inBody => { s with workers := s.workers.set i WorkerPhase.atCheck }

/-- Run a list of events. -/
def runSys (s : WorkerSys) (events : List SysEvent) : WorkerSys :=
  events.foldl stepSys s

/-- The state right after `initializeMemoryQueue`: the flag is set
and one worker task is live. -/
def initialWorkerSys : WorkerSys :=
  { isProcessing := true, workers := [WorkerPhase.atCheck] }

/-- A trace discipline under which the single-worker property can be
recovered: `resumeQueue` is only ever called once no worker task is
live any more (i.e. after a paused worker has observed the cleared
flag and exited). -/
def safeTrace (s : WorkerSys) : List SysEvent → Bool
  | [] => true
  | e :: es =>
      (!decide (e = SysEvent.resume) || decide (s.workers = [])) && safeTrace (stepSys s e) es

/-! ## Helper lemmas: account pool -/

theorem scanAccounts_found {accounts : List Account} {limit : Nat} {a : Account} {c : Nat} :
    ∀ {fuel idx : Nat}, scanAccounts accounts limit idx fuel = .found a c →
      accounts.get? c = some a ∧ a.dailyCount < limit := by
  intro fuel
  induction fuel with
  | zero => intro idx h; simp [scanAccounts] at h
  | succ n ih =>
    intro idx h
    rw [scanAccounts] at h
    cases hg : accounts.get? idx with
    | none => simp only [hg] at h; cases h
    | some b =>
      simp only [hg] at h
      by_cases hb : b.dailyCount < limit
      · rw [if_pos hb] at h
        cases h
        exact ⟨hg, hb⟩
      · rw [if_neg hb] at h
        exact ih h

theorem mem_of_get? {l : List Account} {n : Nat} {a : Account} (h : l.get? n = some a) :
    a ∈ l := by
  obtain ⟨hn, rfl⟩ := List.get?_eq_some.mp h
  exact List.get_mem l _ _

theorem ids_map_incrementUsage (l : List Account) (i : Nat) :
    (incrementUsage l i).map (·.id) = l.map (·.id) := by
  induction l with
  | nil => rfl
  | cons a t ih =>
    by_cases h : a.id = i
    · simp [incrementUsage, h]
    · simp [incrementUsage, h, ih]

theorem ids_map_reset (l : List Account) (t : Nat) :
    (l.map (resetDaily t)).map (·.id) = l.map (·.id) := by
  induction l with
  | nil => rfl
  | cons a rest ih =>
    simp only [List.map_cons, ih, List.cons.injEq, and_true]
    unfold resetDaily
    split <;> rfl

theorem counts_le_reset {l : List Account} {t lim : Nat}
    (hall : ∀ b ∈ l, b.dailyCount ≤ lim) :
    ∀ b ∈ l.map (resetDaily t), b.dailyCount ≤ lim := by
  intro b hb
  obtain ⟨c, hc, rfl⟩ := List.mem_map.mp hb
  unfold resetDaily
  split
  · exact Nat.zero_le _
  · exact hall c hc

theorem counts_le_incrementUsage {l : List Account} {i lim : Nat}
    (hall : ∀ b ∈ l, b.dailyCount ≤ lim)
    (hid : ∀ b ∈ l, b.id = i → b.dailyCount < lim) :
    ∀ b ∈ incrementUsage l i, b.dailyCount ≤ lim := by
  induction l with
  | nil => intro b hb; simp [incrementUsage] at hb
  | cons a t ih =>
    intro b hb
    by_cases h : a.id = i
    · rw [incrementUsage, if_pos h] at hb
      rcases List.mem_cons.mp hb with rfl | hbt
      · exact hid a (List.mem_cons_self _ _) h
      · exact hall b (List.mem_cons_of_mem _ hbt)
    · rw [incrementUsage, if_neg h] at hb
      rcases List.mem_cons.mp hb with rfl | hbt
      · exact hall b (List.mem_cons_self _ _)
      · exact ih (fun c hc => hall c (List.mem_cons_of_mem _ hc))
          (fun c hc => hid c (List.mem_cons_of_mem _ hc)) b hbt

theorem incrementUsage_sum (l : List Account) (i : Nat) :
    ((incrementUsage l i).map (·.dailyCount)).sum =
      (l.map (·.dailyCount)).sum + (if i ∈ l.map (·.id) then 1 else 0) := by
  induction l with
  | nil => simp [incrementUsage]
  | cons a t ih =>
    by_cases h : a.id = i
    · rw [incrementUsage, if_pos h]
      have hmem : i ∈ List.map (·.id) (a :: t) := by
        simp only [List.map_cons, List.mem_cons]
        exact Or.inl h.symm
      rw [if_pos hmem]
      simp only [List.map_cons, List.sum_cons]
      omega
    · rw [incrementUsage, if_neg h]
      simp only [List.map_cons, List.sum_cons, ih]
      have hne : ¬ i = a.id := fun hh => h hh.symm
      simp only [List.map_cons, List.mem_cons, hne, false_or]
      by_cases hmem : i ∈ List.map (·.id) t
      · simp only [if_pos hmem]; omega
      · simp only [if_neg hmem]; omega

/-- The second component of `getNextAvailableAccount` always carries
the lazily reset account list (for an empty pool the reset is the
identity on the empty list). -/
theorem getNext_snd_accounts (today limit : Nat) (cfg : EmailConfig) :
    (getNextAvailableAccount today limit cfg).2.accounts =
      cfg.accounts.map (resetDaily today) := by
  unfold getNextAvailableAccount
  by_cases h : cfg.accounts.length = 0
  · rw [if_pos h]
    rw [List.length_eq_zero.mp h]
    rfl
  · rw [if_neg h]
    cases hscan : scanAccounts (cfg.accounts.map (resetDaily today)) limit
        cfg.currentAccountIndex (cfg.accounts.map (resetDaily today)).length <;>
      simp only [hscan]

/-- A successfully selected account is an element of the (reset)
pool and is strictly below the daily limit. -/
theorem getNext_ok {today limit : Nat} {cfg : EmailConfig} {a : Account} {cfg' : EmailConfig}
    (h : getNextAvailableAccount today limit cfg = (.ok a, cfg')) :
    a ∈ cfg'.accounts ∧ a.dailyCount < limit ∧
      cfg'.accounts = cfg.accounts.map (resetDaily today) := by
  unfold getNextAvailableAccount at h
  by_cases hlen : cfg.accounts.length = 0
  · rw [if_pos hlen] at h
    cases h
  · rw [if_neg hlen] at h
    cases hscan : scanAccounts (cfg.accounts.map (resetDaily today)) limit
        cfg.currentAccountIndex (cfg.accounts.map (resetDaily today)).length with
    | found b c =>
        simp only [hscan] at h
        cases h
        obtain ⟨hget, hlt⟩ := scanAccounts_found hscan
        exact ⟨mem_of_get? hget, hlt, rfl⟩
    | exhausted => simp only [hscan] at h; cases h
    | badIndex => simp only [hscan] at h; cases h

/-- If the account under the cursor is eligible (after its lazy
reset), `getNextAvailableAccount` returns it and the cursor keeps its
value: the loop advances the cursor only past ineligible accounts. -/
theorem getNext_cursor_eligible {today limit : Nat} {cfg : EmailConfig} {a : Account}
    (h1 : cfg.accounts.get? cfg.currentAccountIndex = some a)
    (h2 : (resetDaily today a).dailyCount < limit) :
    getNextAvailableAccount today limit cfg =
      (.ok (resetDaily today a),
       ⟨cfg.accounts.map (resetDaily today), cfg.currentAccountIndex⟩) := by
  have hlt : cfg.currentAccountIndex < cfg.accounts.length := (List.get?_eq_some.mp h1).1
  have hlen : ¬ cfg.accounts.length = 0 := by omega
  have hmap : (cfg.accounts.map (resetDaily today)).get? cfg.currentAccountIndex =
      some (resetDaily today a) := by
    rw [List.get?_map, h1]; rfl
  obtain ⟨n, hn⟩ : ∃ n, (cfg.accounts.map (resetDaily today)).length = n + 1 := by
    refine ⟨cfg.accounts.length - 1, ?_⟩
    rw [List.length_map]; omega
  have hscan : scanAccounts (cfg.accounts.map (resetDaily today)) limit
      cfg.currentAccountIndex (cfg.accounts.map (resetDaily today)).length =
      .found (resetDaily today a) cfg.currentAccountIndex := by
    rw [hn, scanAccounts, hmap]
    simp only [if_pos h2]
  unfold getNextAvailableAccount
  rw [if_neg hlen, hscan]

/-- When every (reset) account is at its daily limit, the scan makes
a full rotation and reports exhaustion — provided the cursor is in
range, which every real operation maintains. -/
theorem scanAccounts_all_full {accounts : List Account} {limit : Nat}
    (hfull : ∀ a ∈ accounts, ¬ a.dailyCount < limit) :
    ∀ (fuel idx : Nat), idx < accounts.length →
      scanAccounts accounts limit idx fuel = .exhausted := by
  intro fuel
  induction fuel with
  | zero => intro idx _; rfl
  | succ n ih =>
    intro idx hidx
    rw [scanAccounts]
    cases hg : accounts.get? idx with
    | none =>
        have := List.get?_eq_none.mp hg
        omega
    | some a =>
        simp only [hg]
        rw [if_neg (hfull a (mem_of_get? hg))]
        exact ih _ (Nat.mod_lt _ (by omega))

/-- The quota-exhausted rejection of `getNextAvailableAccount`. -/
theorem getNext_quota_exhausted {today limit : Nat} {cfg : EmailConfig}
    (hne : cfg.accounts.length ≠ 0)
    (hidx : cfg.currentAccountIndex < cfg.accounts.length)
    (hfull : ∀ a ∈ cfg.accounts, ¬ (resetDaily today a).dailyCount < limit) :
    getNextAvailableAccount today limit cfg =
      (.error "All email accounts have reached their daily sending limit",
       ⟨cfg.accounts.map (resetDaily today), cfg.currentAccountIndex⟩) := by
  have hfull' : ∀ b ∈ cfg.accounts.map (resetDaily today), ¬ b.dailyCount < limit := by
    intro b hb
    obtain ⟨c, hc, rfl⟩ := List.mem_map.mp hb
    exact hfull c hc
  have hscan := scanAccounts_all_full hfull'
    (cfg.accounts.map (resetDaily today)).length cfg.currentAccountIndex
    (by rw [List.length_map]; exact hidx)
  unfold getNextAvailableAccount
  rw [if_neg hne, hscan]

/-- `sendSingleEmail` under total quota exhaustion: the thrown error
is caught and returned as a `success: false` outcome carrying the
quota message; the account pool keeps only the lazy resets. -/
theorem sendSingleEmail_quota {env : Env} {cfg : EmailConfig} {d : EmailData}
    (hne : cfg.accounts.length ≠ 0)
    (hidx : cfg.currentAccountIndex < cfg.accounts.length)
    (hfull : ∀ a ∈ cfg.accounts, ¬ (resetDaily env.today a).dailyCount < env.dailyLimit) :
    sendSingleEmail env cfg d =
      ({ success := false, recipient := d.toAddr,
         error := some "All email accounts have reached their daily sending limit",
         timestamp := env.now },
       ⟨cfg.accounts.map (resetDaily env.today), cfg.currentAccountIndex⟩) := by
  unfold sendSingleEmail
  rw [getNext_quota_exhausted hne hidx hfull]

/-! ## Helper lemmas: the send invariant -/

/-- Distinct-id pools: two member accounts with the same id are the
same account. -/
theorem account_eq_of_id_eq {l : List Account}
    (hids : (l.map (·.id)).Nodup) {a b : Account}
    (ha : a ∈ l) (hb : b ∈ l) (hab : a.id = b.id) : a = b :=
  List.inj_on_of_nodup_map hids ha hb hab

/-- `sendSingleEmail` preserves the id sequence of the pool. -/
theorem sendSingleEmail_ids (env : Env) (cfg : EmailConfig) (d : EmailData) :
    (sendSingleEmail env cfg d).2.accounts.map (·.id) = cfg.accounts.map (·.id) := by
  unfold sendSingleEmail
  cases hg : getNextAvailableAccount env.today env.dailyLimit cfg with
  | mk res cfg' =>
    have hacc : cfg'.accounts = cfg.accounts.map (resetDaily env.today) := by
      have := getNext_snd_accounts env.today env.dailyLimit cfg
      rw [hg] at this
      exact this
    cases res with
    | error e => simp only; rw [hacc, ids_map_reset]
    | ok account =>
        simp only
        cases env.transport account (buildMailOptions d account) with
        | error e => simp only; rw [hacc, ids_map_reset]
        | ok messageId =>
            simp only [incrementAccountUsage]
            rw [ids_map_incrementUsage, hacc, ids_map_reset]

/-- One `sendSingleEmail` call keeps every account at or below the
daily limit (given distinct ids and the bound beforehand). -/
theorem sendSingleEmail_counts {env : Env} {cfg : EmailConfig} {d : EmailData}
    (hids : (cfg.accounts.map (·.id)).Nodup)
    (hcnt : ∀ a ∈ cfg.accounts, a.dailyCount ≤ env.dailyLimit) :
    ∀ a ∈ (sendSingleEmail env cfg d).2.accounts, a.dailyCount ≤ env.dailyLimit := by
  unfold sendSingleEmail
  cases hg : getNextAvailableAccount env.today env.dailyLimit cfg with
  | mk res cfg' =>
    have hacc : cfg'.accounts = cfg.accounts.map (resetDaily env.today) := by
      have := getNext_snd_accounts env.today env.dailyLimit cfg
      rw [hg] at this
      exact this
    have hcnt' : ∀ a ∈ cfg'.accounts, a.dailyCount ≤ env.dailyLimit := by
      rw [hacc]; exact counts_le_reset hcnt
    cases res with
    | error e => simpa using hcnt'
    | ok account =>
        simp only
        cases env.transport account (buildMailOptions d account) with
        | error e => simpa using hcnt'
        | ok messageId =>
            simp only [incrementAccountUsage]
            have hmem := getNext_ok hg
            have hids' : (cfg'.accounts.map (·.id)).Nodup := by
              rw [hacc, ids_map_reset]; exact hids
            refine counts_le_incrementUsage hcnt' ?_
            intro b hb hbid
            have : b = account := account_eq_of_id_eq hids' hb hmem.1 hbid
            rw [this]
            exact hmem.2.1

/-- Any sequence of sends preserves both the id sequence and the
quota bound. -/
theorem runSends_invariant (env : Env) :
    ∀ (datas : List EmailData) (cfg : EmailConfig),
      (cfg.accounts.map (·.id)).Nodup →
      (∀ a ∈ cfg.accounts, a.dailyCount ≤ env.dailyLimit) →
      ((runSends env cfg datas).accounts.map (·.id) = cfg.accounts.map (·.id) ∧
       ∀ a ∈ (runSends env cfg datas).accounts, a.dailyCount ≤ env.dailyLimit) := by
  intro datas
  induction datas with
  | nil => intro cfg hids hcnt; exact ⟨rfl, hcnt⟩
  | cons d rest ih =>
    intro cfg hids hcnt
    have hids1 := sendSingleEmail_ids env cfg d
    have hcnt1 := sendSingleEmail_counts (d := d) hids hcnt
    have := ih (sendSingleEmail env cfg d).2 (by rw [hids1]; exact hids) hcnt1
    exact ⟨by rw [runSends, this.1, hids1], by rw [runSends]; exact this.2⟩

/-! ## Helper lemmas: the job store and the waiting queue -/

theorem lookupJob_setJob_self (jobs : List (Nat × Job)) (i : Nat) (j : Job) :
    lookupJob (setJob jobs i j) i = some j := by
  induction jobs with
  | nil => simp [setJob, lookupJob, List.find?]
  | cons p rest ih =>
    by_cases h : p.1 = i
    · simp [setJob, h, lookupJob, List.find?]
    · simp only [setJob, if_neg h]
      simp only [lookupJob, List.find?] at ih ⊢
      rw [decide_eq_false h]
      exact ih

theorem lookupJob_deleteJob_self (jobs : List (Nat × Job)) (i : Nat) :
    lookupJob (deleteJob jobs i) i = none := by
  induction jobs with
  | nil => rfl
  | cons p rest ih =>
    by_cases h : p.1 = i
    · simpa [deleteJob, h] using ih
    · simp only [deleteJob, List.filter] at ih ⊢
      rw [decide_eq_true (by simpa using h)]
      simp only [lookupJob, List.find?] at ih ⊢
      rw [decide_eq_false h]
      exact ih

theorem mem_setJob {jobs : List (Nat × Job)} {i : Nat} {j : Job} {p : Nat × Job}
    (h : p ∈ setJob jobs i j) : p = (i, j) ∨ p ∈ jobs := by
  induction jobs with
  | nil => simpa [setJob] using h
  | cons q rest ih =>
    by_cases hq : q.1 = i
    · rw [setJob, if_pos hq] at h
      rcases List.mem_cons.mp h with rfl | hr
      · exact Or.inl rfl
      · exact Or.inr (List.mem_cons_of_mem _ hr)
    · rw [setJob, if_neg hq] at h
      rcases List.mem_cons.mp h with rfl | hr
      · exact Or.inr (List.mem_cons_self _ _)
      · rcases ih hr with h1 | h2
        · exact Or.inl h1
        · exact Or.inr (List.mem_cons_of_mem _ h2)

theorem mem_deleteJob {jobs : List (Nat × Job)} {i : Nat} {p : Nat × Job}
    (h : p ∈ deleteJob jobs i) : p ∈ jobs :=
  List.mem_of_mem_filter h

theorem removeFirstById_sublist (l : List Job) (i : Nat) :
    (removeFirstById l i).Sublist l := by
  induction l with
  | nil => simp [removeFirstById]
  | cons j rest ih =>
    by_cases h : j.id = i
    · rw [removeFirstById, if_pos h]
      exact List.sublist_cons_self j rest
    · rw [removeFirstById, if_neg h]
      exact ih.cons₂ j

theorem mem_insertJob {a c : Job} : ∀ {l : List Job}, c ∈ insertJob a l ↔ c = a ∨ c ∈ l := by
  intro l
  induction l with
  | nil => simp [insertJob]
  | cons b t ih =>
    by_cases h : sortLE a b
    · rw [insertJob, if_pos h]
      simp [List.mem_cons]
    · rw [insertJob, if_neg h]
      simp only [List.mem_cons, ih]
      tauto

theorem mem_sortQueue {c : Job} : ∀ {l : List Job}, c ∈ sortQueue l ↔ c ∈ l := by
  intro l
  induction l with
  | nil => simp [sortQueue]
  | cons a t ih =>
    rw [sortQueue, mem_insertJob]
    simp only [List.mem_cons, ih]

/-! ## Helper lemmas: priority order of the waiting queue -/

/-- The order the design asks of the waiting queue: strictly higher
priority first, FIFO (by the monotone job id) within a tier. -/
def queueLE (a b : Job) : Prop :=
  b.priority < a.priority ∨ (a.priority = b.priority ∧ a.id ≤ b.id)

/-- Tie-compatibility of an ordered pair: equal priorities appear in
id (creation) order. -/
def tieOK (a b : Job) : Prop := a.priority = b.priority → a.id ≤ b.id

theorem queueLE_tieOK {a b : Job} (h : queueLE a b) : tieOK a b := by
  intro hpr
  rcases h with h | ⟨_, h⟩
  · omega
  · exact h

theorem insertJob_pairwise {a : Job} :
    ∀ {l : List Job}, l.Pairwise queueLE →
      (∀ b ∈ l, (sortLE a b = true → queueLE a b) ∧ (sortLE a b = false → queueLE b a)) →
      (insertJob a l).Pairwise queueLE := by
  intro l
  induction l with
  | nil => intro _ _; simp [insertJob]
  | cons b t ih =>
    intro hp hcompat
    rw [List.pairwise_cons] at hp
    by_cases h : sortLE a b
    · rw [insertJob, if_pos h]
      rw [List.pairwise_cons]
      constructor
      · intro c hc
        rcases List.mem_cons.mp hc with hcb | hct
        · rw [hcb]
          exact (hcompat b (List.mem_cons_self _ _)).1 h
        · have hbc := hp.1 c hct
          have hba : b.priority ≤ a.priority := of_decide_eq_true h
          have hcb : c.priority ≤ b.priority := by
            rcases hbc with h1 | ⟨h1, _⟩ <;> omega
          exact (hcompat c (List.mem_cons_of_mem _ hct)).1
            (decide_eq_true (by omega))
      · rw [List.pairwise_cons]
        exact ⟨hp.1, hp.2⟩
    · rw [insertJob, if_neg h]
      rw [List.pairwise_cons]
      constructor
      · intro c hc
        rcases mem_insertJob.mp hc with hca | hct
        · rw [hca]
          exact (hcompat b (List.mem_cons_self _ _)).2 (by simpa using h)
        · exact hp.1 c hct
      · exact ih hp.2 (fun c hc => hcompat c (List.mem_cons_of_mem _ hc))

/-- The stable sort of a tie-compatible list is in queue order. -/
theorem sortQueue_pairwise :
    ∀ {l : List Job}, l.Pairwise tieOK → (sortQueue l).Pairwise queueLE := by
  intro l
  induction l with
  | nil => intro _; simp [sortQueue]
  | cons a t ih =>
    intro hp
    rw [List.pairwise_cons] at hp
    rw [sortQueue]
    refine insertJob_pairwise (ih hp.2) ?_
    intro c hc
    have hct : c ∈ t := mem_sortQueue.mp hc
    constructor
    · intro hle
      have hca : c.priority ≤ a.priority := of_decide_eq_true hle
      by_cases heq : a.priority = c.priority
      · exact Or.inr ⟨heq, hp.1 c hct heq⟩
      · exact Or.inl (by omega)
    · intro hle
      have hca : ¬ c.priority ≤ a.priority := of_decide_eq_false hle
      exact Or.inl (by omega)

/-! ## Helper lemmas: the job state machine -/

/-- The real job body never throws: `sendSingleEmail` catches every
error internally, and the bulk loop catches per-recipient errors. -/
theorem runJobBody_ok (env : Env) (cfg : EmailConfig) (job : Job) :
    ∃ r, (runJobBody env cfg job).result = Except.ok r := by
  cases h : job.data with
  | single d =>
      refine ⟨JobResult.single (sendSingleEmail env cfg d).1, ?_⟩
      simp [runJobBody, h]
  | bulk rs t o =>
      refine ⟨JobResult.bulk (processBulkEmailWithProgress env 0 cfg rs t o).1, ?_⟩
      simp [runJobBody, h]

/-- With a normal body return, `processMemoryJob`'s state machine
leaves the waiting queue and the id counter alone (the job goes to
the completed history). -/
theorem processJobWith_ok_queue {o : BodyOutcome} {r : JobResult}
    (hr : o.result = .ok r) (now : Nat) (q : QueueState) (j : Job) :
    (processJobWith o now q j).queue = q.queue ∧
      (processJobWith o now q j).jobCounter = q.jobCounter ∧
      (processJobWith o now q j).failedHistory = q.failedHistory := by
  unfold processJobWith
  rw [hr]
  exact ⟨rfl, rfl, rfl⟩

/-- On a thrown body with retry budget left, the job is re-marked
`waiting` and pushed to the back of the whole queue array. -/
theorem processJobWith_retry_queue {o : BodyOutcome} {e : String}
    (he : o.result = .error e) (now : Nat) (q : QueueState) (j : Job)
    (h : j.attempts + 1 < j.maxAttempts) :
    (processJobWith o now q j).queue =
      q.queue ++ [{ j with
                    state := JobState.waiting
                    attempts := j.attempts + 1
                    processedAt := some now
                    progress := o.progress }] := by
  unfold processJobWith
  rw [he]
  dsimp only
  rw [if_pos h]

/-- Every branch of `processMemoryJob` writes back a record with
`attempts` incremented by exactly one. -/
theorem processJobWith_attempts (o : BodyOutcome) (now : Nat) (q : QueueState) (j : Job) :
    ∃ j', lookupJob (processJobWith o now q j).jobs j.id = some j' ∧
      j'.attempts = j.attempts + 1 := by
  unfold processJobWith
  cases hr : o.result with
  | ok r => exact ⟨_, lookupJob_setJob_self _ _ _, rfl⟩
  | error e =>
      dsimp only
      by_cases h : j.attempts + 1 < j.maxAttempts
      · rw [if_pos h]
        exact ⟨_, lookupJob_setJob_self _ _ _, rfl⟩
      · rw [if_neg h]
        exact ⟨_, lookupJob_setJob_self _ _ _, rfl⟩

/-- The retry-policy bound carried by every job record: a waiting job
still has retry budget, a failed job never overshot `maxAttempts`. -/
def jobOK (j : Job) : Prop :=
  (j.state = JobState.waiting → j.attempts < j.maxAttempts) ∧
  (j.state = JobState.failed → j.attempts ≤ j.maxAttempts)

/-- The bound holds for every record in the store and in the waiting
queue. -/
def jobsOK (q : QueueState) : Prop :=
  (∀ p ∈ q.jobs, jobOK p.2) ∧ (∀ j ∈ q.queue, jobOK j)

theorem processJobWith_jobsOK {o : BodyOutcome} {now : Nat} {q : QueueState} {j : Job}
    (hq : jobsOK q) (hj : jobOK j) (hw : j.state = JobState.waiting) :
    jobsOK (processJobWith o now q j) := by
  have hlt : j.attempts < j.maxAttempts := hj.1 hw
  unfold processJobWith
  cases hr : o.result with
  | ok r =>
      refine ⟨?_, hq.2⟩
      intro p hp
      rcases mem_setJob hp with hpe | hpq
      · rw [hpe]
        exact ⟨fun hh => (nomatch hh), fun hh => (nomatch hh)⟩
      · exact hq.1 p hpq
  | error e =>
      dsimp only
      by_cases h : j.attempts + 1 < j.maxAttempts
      · rw [if_pos h]
        constructor
        · intro p hp
          rcases mem_setJob hp with hpe | hpq
          · rw [hpe]
            exact ⟨fun _ => h, fun hh => (nomatch hh)⟩
          · exact hq.1 p hpq
        · intro c hc
          rcases List.mem_append.mp hc with hcq | hcn
          · exact hq.2 c hcq
          · rcases List.mem_singleton.mp hcn with rfl
            exact ⟨fun _ => h, fun hh => (nomatch hh)⟩
      · rw [if_neg h]
        refine ⟨?_, hq.2⟩
        intro p hp
        rcases mem_setJob hp with hpe | hpq
        · rw [hpe]
          exact ⟨fun hh => (nomatch hh), fun _ => hlt⟩
        · exact hq.1 p hpq

theorem addSingle_jobsOK {d : EmailData} {pr : Int} {now : Nat} {q : QueueState}
    (hq : jobsOK q) : jobsOK (addSingleEmailJob d pr now q).2 := by
  unfold addSingleEmailJob
  constructor
  · intro p hp
    rcases mem_setJob hp with hpe | hpq
    · rw [hpe]
      exact ⟨fun _ => ((by decide : (0:Nat) < 3)), fun hh => (nomatch hh)⟩
    · exact hq.1 p hpq
  · intro c hc
    rcases List.mem_append.mp (mem_sortQueue.mp hc) with hcq | hcn
    · exact hq.2 c hcq
    · rcases List.mem_singleton.mp hcn with rfl
      exact ⟨fun _ => ((by decide : (0:Nat) < 3)), fun hh => (nomatch hh)⟩

theorem addBulk_jobsOK {rs : List Recipient} {t : EmailTemplate} {o : BulkOptions}
    {pr : Int} {now : Nat} {q : QueueState}
    (hq : jobsOK q) : jobsOK (addBulkEmailJob rs t o pr now q).2 := by
  unfold addBulkEmailJob
  constructor
  · intro p hp
    rcases mem_setJob hp with hpe | hpq
    · rw [hpe]
      exact ⟨fun _ => ((by decide : (0:Nat) < 3)), fun hh => (nomatch hh)⟩
    · exact hq.1 p hpq
  · intro c hc
    rcases List.mem_append.mp (mem_sortQueue.mp hc) with hcq | hcn
    · exact hq.2 c hcq
    · rcases List.mem_singleton.mp hcn with rfl
      exact ⟨fun _ => ((by decide : (0:Nat) < 3)), fun hh => (nomatch hh)⟩

theorem cancel_jobsOK {q : QueueState} {i : Nat} (hq : jobsOK q) :
    jobsOK (cancelJob q i).2 := by
  unfold cancelJob
  cases hl : lookupJob q.jobs i with
  | none => exact hq
  | some job =>
      dsimp only
      by_cases hw : job.state = JobState.waiting
      · rw [if_pos hw]
        constructor
        · intro p hp
          exact hq.1 p (mem_deleteJob hp)
        · intro c hc
          exact hq.2 c ((removeFirstById_sublist q.queue job.id).subset hc)
      · rw [if_neg hw]
        exact hq

theorem workerStep_jobsOK {body : EmailConfig → Job → BodyOutcome} {now : Nat}
    {q : QueueState} (hq : jobsOK q) : jobsOK (workerStep body now q) := by
  unfold workerStep
  cases hqueue : q.queue with
  | nil => exact hq
  | cons job rest =>
      dsimp only
      have hq1 : jobsOK { q with queue := rest } := by
        refine ⟨hq.1, ?_⟩
        intro c hc
        exact hq.2 c (by rw [hqueue]; exact List.mem_cons_of_mem _ hc)
      by_cases hw : job.state = JobState.waiting
      · rw [if_pos hw]
        exact processJobWith_jobsOK hq1 (hq.2 job (by rw [hqueue]; exact List.mem_cons_self _ _)) hw
      · rw [if_neg hw]
        exact hq1

theorem applyOp_jobsOK (body : EmailConfig → Job → BodyOutcome) (q : QueueState)
    (op : QueueOp) (hq : jobsOK q) : jobsOK (applyOp body q op) := by
  cases op with
  | addSingle d p now => exact addSingle_jobsOK hq
  | addBulk r t o p now => exact addBulk_jobsOK hq
  | work now => exact workerStep_jobsOK hq
  | cancel i => exact cancel_jobsOK hq

theorem runQueue_jobsOK (body : EmailConfig → Job → BodyOutcome) (ops : List QueueOp) :
    ∀ (q : QueueState), jobsOK q → jobsOK (runQueue body q ops) := by
  induction ops with
  | nil => intro q hq; exact hq
  | cons op rest ih =>
      intro q hq
      exact ih _ (applyOp_jobsOK body q op hq)

/-! ## Helper lemmas: the waiting queue stays in priority order -/

/-- The waiting queue is sorted by descending priority with FIFO
(id-ascending) tie-break, and every queued id is within the counter
(so a fresh id is strictly larger than every queued one). -/
def queueInv (q : QueueState) : Prop :=
  q.queue.Pairwise queueLE ∧ ∀ j ∈ q.queue, j.id ≤ q.jobCounter

theorem addSingle_queueInv {d : EmailData} {pr : Int} {now : Nat} {q : QueueState}
    (h : queueInv q) : queueInv (addSingleEmailJob d pr now q).2 := by
  unfold addSingleEmailJob
  dsimp only
  constructor
  · apply sortQueue_pairwise
    rw [List.pairwise_append]
    refine ⟨h.1.imp queueLE_tieOK, by simp, ?_⟩
    intro a ha b hb
    rcases List.mem_singleton.mp hb with rfl
    intro _
    exact Nat.le_succ_of_le (h.2 a ha)
  · intro c hc
    rcases List.mem_append.mp (mem_sortQueue.mp hc) with hcq | hcn
    · exact Nat.le_succ_of_le (h.2 c hcq)
    · rcases List.mem_singleton.mp hcn with rfl
      exact Nat.le_refl _

theorem addBulk_queueInv {rs : List Recipient} {t : EmailTemplate} {o : BulkOptions}
    {pr : Int} {now : Nat} {q : QueueState}
    (h : queueInv q) : queueInv (addBulkEmailJob rs t o pr now q).2 := by
  unfold addBulkEmailJob
  dsimp only
  constructor
  · apply sortQueue_pairwise
    rw [List.pairwise_append]
    refine ⟨h.1.imp queueLE_tieOK, by simp, ?_⟩
    intro a ha b hb
    rcases List.mem_singleton.mp hb with rfl
    intro _
    exact Nat.le_succ_of_le (h.2 a ha)
  · intro c hc
    rcases List.mem_append.mp (mem_sortQueue.mp hc) with hcq | hcn
    · exact Nat.le_succ_of_le (h.2 c hcq)
    · rcases List.mem_singleton.mp hcn with rfl
      exact Nat.le_refl _

theorem workerStep_queueInv {body : EmailConfig → Job → BodyOutcome} {now : Nat}
    {q : QueueState}
    (hbody : ∀ cfg job, ∃ r, (body cfg job).result = Except.ok r)
    (h : queueInv q) : queueInv (workerStep body now q) := by
  unfold workerStep
  cases hqueue : q.queue with
  | nil => exact h
  | cons job rest =>
      dsimp only
      have h1 : queueInv { q with queue := rest } := by
        constructor
        · have hp := h.1
          rw [hqueue] at hp
          exact hp.of_cons
        · intro c hc
          exact h.2 c (by rw [hqueue]; exact List.mem_cons_of_mem _ hc)
      by_cases hw : job.state = JobState.waiting
      · rw [if_pos hw]
        obtain ⟨r, hr⟩ := hbody ({ q with queue := rest }).cfg job
        have hqq := processJobWith_ok_queue hr now { q with queue := rest } job
        constructor
        · rw [hqq.1]
          exact h1.1
        · intro c hc
          rw [hqq.1] at hc
          rw [hqq.2.1]
          exact h1.2 c hc
      · rw [if_neg hw]
        exact h1

theorem cancel_queueInv {q : QueueState} {i : Nat} (h : queueInv q) :
    queueInv (cancelJob q i).2 := by
  unfold cancelJob
  cases hl : lookupJob q.jobs i with
  | none => exact h
  | some job =>
      dsimp only
      by_cases hw : job.state = JobState.waiting
      · rw [if_pos hw]
        constructor
        · exact List.Pairwise.sublist (removeFirstById_sublist q.queue job.id) h.1
        · intro c hc
          exact h.2 c ((removeFirstById_sublist q.queue job.id).subset hc)
      · rw [if_neg hw]
        exact h

theorem applyOp_queueInv (body : EmailConfig → Job → BodyOutcome)
    (hbody : ∀ cfg job, ∃ r, (body cfg job).result = Except.ok r)
    (q : QueueState) (op : QueueOp) (h : queueInv q) : queueInv (applyOp body q op) := by
  cases op with
  | addSingle d p now => exact addSingle_queueInv h
  | addBulk r t o p now => exact addBulk_queueInv h
  | work now => exact workerStep_queueInv hbody h
  | cancel i => exact cancel_queueInv h

theorem runQueue_queueInv (body : EmailConfig → Job → BodyOutcome)
    (hbody : ∀ cfg job, ∃ r, (body cfg job).result = Except.ok r) (ops : List QueueOp) :
    ∀ (q : QueueState), queueInv q → queueInv (runQueue body q ops) := by
  induction ops with
  | nil => intro q h; exact h
  | cons op rest ih =>
      intro q h
      exact ih _ (applyOp_queueInv body hbody q op h)

/-! ## Concrete instances for witnesses and counterexamples -/

/-- A sample account with id `i` and current daily count `c`
(`lastResetDate` matching the sample clock, so no lazy reset fires). -/
def sampleAccount (i c : Nat) : Account :=
  { id := i, email := "a" ++ toString i ++ "@x", dailyCount := c, lastResetDate := 7 }

/-- An environment whose transport always succeeds and whose renderer
always compiles; the daily limit is the default 450. -/
def okEnv : Env :=
  { today := 7, dailyLimit := 450, now := 0,
    transport := fun _ _ => .ok "mid",
    render := fun t _ => .ok { subject := t.subject, html := t.html, text := t.text } }

/-- The same environment with `DAILY_EMAIL_LIMIT_PER_ACCOUNT = 2`
(the scenario size used in the spec examples). -/
def okEnv2 : Env := { okEnv with dailyLimit := 2 }

/-- A body that always throws, standing for a transport-layer
rejection escalating out of the job body (used to drive the retry
path of the state machine). -/
def errBody : EmailConfig → Job → BodyOutcome :=
  fun cfg _ => { result := .error "SMTP connection failed", progress := 0, cfg := cfg }

end StrongBody

namespace StrongBody

/-! ## Claim theorems -/

/-- C10: `sendSingleEmail` is total over its inputs: it always
returns a record with a boolean success flag and never raises; on
success the record carries a message id and the sending account, on
any failure (including no accounts configured) it carries the error
message instead, with `success = false` — the error is converted into
the return value rather than propagated. -/
theorem c10_sendSingleEmail_total (env : Env) (cfg : EmailConfig) (d : EmailData) :
    ((sendSingleEmail env cfg d).1.recipient = d.toAddr) ∧
    ((sendSingleEmail env cfg d).1.timestamp = env.now) ∧
    ((sendSingleEmail env cfg d).1.success = true →
      (sendSingleEmail env cfg d).1.messageId.isSome ∧
      (sendSingleEmail env cfg d).1.senderAccount.isSome ∧
      (sendSingleEmail env cfg d).1.error = none) ∧
    ((sendSingleEmail env cfg d).1.success = false →
      (sendSingleEmail env cfg d).1.error.isSome ∧
      (sendSingleEmail env cfg d).1.messageId = none ∧
      (sendSingleEmail env cfg d).1.senderAccount = none) ∧
    (cfg.accounts = [] →
      (sendSingleEmail env cfg d).1.success = false ∧
      (sendSingleEmail env cfg d).1.error =
        some "No email accounts configured. Please configure email accounts in your .env file.") := by
  have hshape :
      (∃ acc mid, (sendSingleEmail env cfg d).1 =
        { success := true, messageId := some mid, recipient := d.toAddr,
          senderAccount := some acc, timestamp := env.now }) ∨
      (∃ e, (sendSingleEmail env cfg d).1 =
        { success := false, recipient := d.toAddr, error := some e, timestamp := env.now }) := by
    unfold sendSingleEmail
    cases hg : getNextAvailableAccount env.today env.dailyLimit cfg with
    | mk res cfg' =>
      cases res with
      | error e => exact Or.inr ⟨e, rfl⟩
      | ok account =>
          dsimp only
          cases ht : env.transport account (buildMailOptions d account) with
          | error e => exact Or.inr ⟨e, rfl⟩
          | ok mid => exact Or.inl ⟨account.email, mid, rfl⟩
  have hempty : cfg.accounts = [] →
      (sendSingleEmail env cfg d).1 =
        { success := false, recipient := d.toAddr,
          error := some "No email accounts configured. Please configure email accounts in your .env file.",
          timestamp := env.now } := by
    intro hnil
    unfold sendSingleEmail getNextAvailableAccount
    rw [hnil]
    rfl
  rcases hshape with ⟨acc, mid, hr⟩ | ⟨e, hr⟩ <;> rw [hr] <;>
    refine ⟨rfl, rfl, ?_, ?_, ?_⟩
  · intro _; exact ⟨rfl, rfl, rfl⟩
  · intro hfalse; cases hfalse
  · intro hnil
    have := hempty hnil
    rw [hr] at this
    cases this
  · intro htrue; cases htrue
  · intro _; exact ⟨rfl, rfl, rfl⟩
  · intro hnil
    have := hempty hnil
    rw [hr] at this
    cases this
    exact ⟨rfl, rfl⟩

/-- C10 witness: with no accounts configured, the call returns (not
throws) a failure record carrying the configuration error. -/
theorem c10_witness :
    (sendSingleEmail okEnv ⟨[], 0⟩ { toAddr := "r@x", subject := "s" }).1.success = false ∧
    (sendSingleEmail okEnv ⟨[], 0⟩ { toAddr := "r@x", subject := "s" }).1.error =
      some "No email accounts configured. Please configure email accounts in your .env file." :=
  (c10_sendSingleEmail_total okEnv ⟨[], 0⟩ { toAddr := "r@x", subject := "s" }).2.2.2.2 rfl

/-- C2 counterexample: with two fresh accounts (both eligible, daily
limit 2), two consecutive successful sends both go through account 1
and the rotation cursor stays at 0 — the cursor is not advanced when
an eligible account is returned, so N consecutive sends do not use
each of the N accounts exactly once. -/
theorem c2_counterexample :
    ((sendSingleEmail okEnv2 ⟨[sampleAccount 1 0, sampleAccount 2 0], 0⟩
        { toAddr := "r1@x", subject := "s" }).1.senderAccount = some "a1@x") ∧
    ((sendSingleEmail okEnv2 (sendSingleEmail okEnv2 ⟨[sampleAccount 1 0, sampleAccount 2 0], 0⟩
        { toAddr := "r1@x", subject := "s" }).2
        { toAddr := "r2@x", subject := "s" }).1.senderAccount = some "a1@x") ∧
    ((sendSingleEmail okEnv2 ⟨[sampleAccount 1 0, sampleAccount 2 0], 0⟩
        { toAddr := "r1@x", subject := "s" }).2.currentAccountIndex = 0) := by decide

/-- C2 (amended): `getNextAvailableAccount` leaves the cursor
unchanged whenever the account under the cursor is eligible after its
lazy reset (the cursor advances only past quota-exhausted accounts),
so consecutive successful sends keep using the same account until it
reaches its daily limit. -/
theorem c2_cursor_sticky {today limit : Nat} {cfg : EmailConfig} {a : Account}
    (h1 : cfg.accounts.get? cfg.currentAccountIndex = some a)
    (h2 : (resetDaily today a).dailyCount < limit) :
    (getNextAvailableAccount today limit cfg).1 = .ok (resetDaily today a) ∧
    (getNextAvailableAccount today limit cfg).2.currentAccountIndex =
      cfg.currentAccountIndex := by
  rw [getNext_cursor_eligible h1 h2]
  exact ⟨rfl, rfl⟩

/-- C2 witness: concrete two-account pool, cursor at 0, account 1
eligible: the call returns account 1 and the cursor stays at 0. -/
theorem c2_witness :
    (getNextAvailableAccount 7 2 ⟨[sampleAccount 1 0, sampleAccount 2 0], 0⟩).1 =
      .ok (resetDaily 7 (sampleAccount 1 0)) ∧
    (getNextAvailableAccount 7 2 ⟨[sampleAccount 1 0, sampleAccount 2 0], 0⟩).2.currentAccountIndex
      = 0 :=
  c2_cursor_sticky (by rfl) (by decide)

/-- C4: over any sequence of sends from a pool with distinct account
ids whose counts respect the limit, (1) no account's `dailyCount`
ever exceeds `dailyLimit`; (2) `getNextAvailableAccount` never
returns an account already at the limit (at-limit accounts are
skipped); (3) `incrementAccountUsage` adds exactly one to the total
count when the account id is present. -/
theorem c4_quota_invariant (env : Env) (cfg : EmailConfig) (datas : List EmailData)
    (hids : (cfg.accounts.map (·.id)).Nodup)
    (hcnt : ∀ a ∈ cfg.accounts, a.dailyCount ≤ env.dailyLimit) :
    (∀ a ∈ (runSends env cfg datas).accounts, a.dailyCount ≤ env.dailyLimit) ∧
    (∀ (c : EmailConfig) (a : Account) (c' : EmailConfig),
        getNextAvailableAccount env.today env.dailyLimit c = (.ok a, c') →
        a.dailyCount < env.dailyLimit) ∧
    (∀ (c : EmailConfig) (aid : Nat), aid ∈ c.accounts.map (·.id) →
        ((incrementAccountUsage c aid).accounts.map (·.dailyCount)).sum =
          (c.accounts.map (·.dailyCount)).sum + 1) := by
  refine ⟨(runSends_invariant env datas cfg hids hcnt).2, ?_, ?_⟩
  · intro c a c' hg
    exact (getNext_ok hg).2.1
  · intro c aid hmem
    unfold incrementAccountUsage
    dsimp only
    rw [incrementUsage_sum, if_pos hmem]

/-- C4 witness: two accounts at counts 0 and 1 with limit 2; after
two sends account 1 sits exactly at the limit, not above it. -/
theorem c4_witness :
    (sampleAccount 1 2).dailyCount ≤ okEnv2.dailyLimit :=
  (c4_quota_invariant okEnv2 ⟨[sampleAccount 1 0, sampleAccount 2 1], 0⟩
      [{ toAddr := "r1@x", subject := "s" }, { toAddr := "r2@x", subject := "s" }]
      (by decide) (by decide)).1 (sampleAccount 1 2) (by decide)

/-- The single-email job used by the C1 scenario: `maxAttempts = 1`,
all accounts at quota. -/
def c1Job : Job :=
  { id := 1
    data := .single { toAddr := "r@x", subject := "s" }
    state := JobState.waiting
    progress := 0
    createdAt := 0
    priority := 0
    attempts := 0
    maxAttempts := 1 }

/-- Queue state for the C1 scenario: one account already at the
daily limit of 2. -/
def c1State : QueueState :=
  { initialQueueState ⟨[sampleAccount 1 2], 0⟩ with jobs := [(1, c1Job)] }

/-- C1 counterexample: a single-email job with `maxAttempts = 1` and
every account at quota ends in state `completed` (with a
`success: false` result carrying the quota error), not in state
`failed` as the claim requires — `sendSingleEmail` swallows the
failure, so nothing propagates to the RetryPolicy. -/
theorem c1_counterexample :
    ((lookupJob (processMemoryJob okEnv2 c1State c1Job).jobs 1).map (·.state) =
        some JobState.completed) ∧
    ((lookupJob (processMemoryJob okEnv2 c1State c1Job).jobs 1).map (·.state) ≠
        some JobState.failed) ∧
    ((lookupJob (processMemoryJob okEnv2 c1State c1Job).jobs 1).map (·.result) =
        some (some (JobResult.single
          { success := false, recipient := "r@x",
            error := some "All email accounts have reached their daily sending limit",
            timestamp := 0 }))) := by decide

/-- C1 (amended): a single-email job never reaches `failed` through
its send: `sendSingleEmail` converts every failure into a
`success: false` return value, so `processMemoryJob` always marks the
job `completed` (progress 100, attempts incremented once, result
holding the outcome), touches neither the queue nor the failed
history, and under total quota exhaustion the stored outcome is a
failure record with the quota message. -/
theorem c1_single_job_always_completes (env : Env) (q : QueueState) (job : Job)
    (d : EmailData) (h : job.data = JobData.single d) :
    (lookupJob (processMemoryJob env q job).jobs job.id =
      some { job with
             state := JobState.completed
             progress := 100
             attempts := job.attempts + 1
             processedAt := some env.now
             finishedAt := some env.now
             result := some (JobResult.single (sendSingleEmail env q.cfg d).1) }) ∧
    ((processMemoryJob env q job).queue = q.queue) ∧
    ((processMemoryJob env q job).failedHistory = q.failedHistory) ∧
    (q.cfg.accounts.length ≠ 0 →
     q.cfg.currentAccountIndex < q.cfg.accounts.length →
     (∀ a ∈ q.cfg.accounts, ¬ (resetDaily env.today a).dailyCount < env.dailyLimit) →
     (sendSingleEmail env q.cfg d).1.success = false ∧
     (sendSingleEmail env q.cfg d).1.error =
       some "All email accounts have reached their daily sending limit") := by
  have hbody : runJobBody env q.cfg job =
      { result := .ok (JobResult.single (sendSingleEmail env q.cfg d).1)
        progress := job.progress
        cfg := (sendSingleEmail env q.cfg d).2 } := by
    unfold runJobBody
    rw [h]
  refine ⟨?_, ?_, ?_, ?_⟩
  · unfold processMemoryJob
    rw [hbody]
    unfold processJobWith
    dsimp only
    exact lookupJob_setJob_self _ _ _
  · unfold processMemoryJob
    rw [hbody]
    unfold processJobWith
    rfl
  · unfold processMemoryJob
    rw [hbody]
    unfold processJobWith
    rfl
  · intro hne hidx hfull
    rw [sendSingleEmail_quota hne hidx hfull]
    exact ⟨rfl, rfl⟩

/-- C1 witness: the amended theorem applied at the concrete scenario
(one account at quota, limit 2): the send outcome stored on
completion is the quota failure. -/
theorem c1_witness :
    (sendSingleEmail okEnv2 c1State.cfg { toAddr := "r@x", subject := "s" }).1.success = false ∧
    (sendSingleEmail okEnv2 c1State.cfg { toAddr := "r@x", subject := "s" }).1.error =
      some "All email accounts have reached their daily sending limit" :=
  (c1_single_job_always_completes okEnv2 c1State c1Job { toAddr := "r@x", subject := "s" }
    rfl).2.2.2 (by decide) (by decide) (by decide)

/-- C3: evaluating `processBulkEmailWithProgress` (memory backend) at
the failing input — two recipients, transport succeeding for both —
produces `successful = 2, failed = 1` and three detail entries for a
total of 2: the second recipient is double-counted because
`if (job.progress)` is truthy once the progress number is nonzero and
calling it raises a TypeError handled by the per-recipient catch.
`successful + failed == total == len(details)` is violated. -/
theorem c3_bulk_double_count :
    ((processBulkEmailWithProgress okEnv 0 ⟨[sampleAccount 1 0], 0⟩
        [⟨"r1@x", 0⟩, ⟨"r2@x", 0⟩] ⟨"subj", none, none⟩ {}).1 =
      { total := 2, successful := 2, failed := 1,
        details :=
          [{ success := true, messageId := some "mid", recipient := "r1@x",
             senderAccount := some "a1@x", timestamp := 0 },
           { success := true, messageId := some "mid", recipient := "r2@x",
             senderAccount := some "a1@x", timestamp := 0 },
           { success := false, recipient := "r2@x",
             error := some "job.progress is not a function", timestamp := 0 }] }) ∧
    ¬ ((processBulkEmailWithProgress okEnv 0 ⟨[sampleAccount 1 0], 0⟩
        [⟨"r1@x", 0⟩, ⟨"r2@x", 0⟩] ⟨"subj", none, none⟩ {}).1.successful +
       (processBulkEmailWithProgress okEnv 0 ⟨[sampleAccount 1 0], 0⟩
        [⟨"r1@x", 0⟩, ⟨"r2@x", 0⟩] ⟨"subj", none, none⟩ {}).1.failed =
       (processBulkEmailWithProgress okEnv 0 ⟨[sampleAccount 1 0], 0⟩
        [⟨"r1@x", 0⟩, ⟨"r2@x", 0⟩] ⟨"subj", none, none⟩ {}).1.total) := by decide

/-- The waiting job of the C5 scenario. -/
def c5Job : Job :=
  { id := 1
    data := .single { toAddr := "r@x", subject := "s" }
    state := JobState.waiting
    progress := 0
    createdAt := 0
    priority := 0
    attempts := 0
    maxAttempts := 3 }

/-- Queue state for the C5 scenario: the job is waiting, in the map
and in the queue. -/
def c5State : QueueState :=
  { initialQueueState ⟨[sampleAccount 1 0], 0⟩ with
    jobs := [(1, c5Job)]
    jobCounter := 1
    queue := [c5Job] }

/-- C5 counterexample: cancelling a waiting job succeeds, but
`cancelJob` also deletes the record from the store
(`this.jobs.delete(job.id)`), so the follow-up status query does NOT
find it and fails with `Job 1 not found` instead of reporting the
cancellation error in `result.error`. -/
theorem c5_counterexample :
    ((cancelJob c5State 1).1 = .ok true) ∧
    (getJobStatus (cancelJob c5State 1).2 1 = .error "Job 1 not found") :=
  ⟨rfl, rfl⟩

/-- C5 (amended): `cancelJob` succeeds only on a `waiting` job,
removing it from the queue — but it also deletes the record from the
store, so a later status query fails with `NotFound` rather than
reporting the cancellation reason; cancelling a job in any other
state (active or terminal) is rejected with
`Cannot cancel job <id> in state <state>`.  (`hid` records that the
store keys every record by its own id, which every reachable state
satisfies.) -/
theorem c5_cancel_behavior (q : QueueState) (jobId : Nat) (job : Job)
    (h : lookupJob q.jobs jobId = some job) (hid : job.id = jobId) :
    (job.state = JobState.waiting →
      cancelJob q jobId = (.ok true,
        { q with queue := removeFirstById q.queue jobId, jobs := deleteJob q.jobs jobId }) ∧
      getJobStatus (cancelJob q jobId).2 jobId =
        .error ("Job " ++ toString jobId ++ " not found")) ∧
    (job.state ≠ JobState.waiting →
      cancelJob q jobId =
        (.error ("Cannot cancel job " ++ toString jobId ++ " in state " ++ job.state.asString),
         q)) := by
  constructor
  · intro hw
    have hc : cancelJob q jobId = (.ok true,
        { q with queue := removeFirstById q.queue jobId, jobs := deleteJob q.jobs jobId }) := by
      unfold cancelJob
      rw [h]
      dsimp only
      rw [if_pos hw, hid]
    refine ⟨hc, ?_⟩
    rw [hc]
    unfold getJobStatus
    rw [lookupJob_deleteJob_self]
  · intro hw
    unfold cancelJob
    rw [h]
    dsimp only
    rw [if_neg hw]

/-- C5 witness: the amended theorem at the concrete scenario. -/
theorem c5_witness :
    cancelJob c5State 1 = (.ok true,
      { c5State with queue := removeFirstById c5State.queue 1, jobs := deleteJob c5State.jobs 1 }) ∧
    getJobStatus (cancelJob c5State 1).2 1 = .error ("Job " ++ toString 1 ++ " not found") :=
  (c5_cancel_behavior c5State 1 c5Job rfl rfl).1 rfl

/-- The low-priority waiting job of the C6 scenario. -/
def c6Low : Job :=
  { id := 1
    data := .single { toAddr := "low@x", subject := "s" }
    state := JobState.waiting
    progress := 0
    createdAt := 0
    priority := 1
    attempts := 0
    maxAttempts := 3 }

/-- The high-priority job of the C6 scenario (about to fail its first
attempt). -/
def c6High : Job :=
  { id := 2
    data := .single { toAddr := "high@x", subject := "s" }
    state := JobState.waiting
    progress := 0
    createdAt := 0
    priority := 5
    attempts := 0
    maxAttempts := 3 }

/-- Queue state for the C6 scenario: the priority-1 job is waiting in
the queue while the priority-5 job is being processed. -/
def c6State : QueueState :=
  { initialQueueState ⟨[sampleAccount 1 0], 0⟩ with
    jobs := [(1, c6Low), (2, c6High)]
    jobCounter := 2
    queue := [c6Low] }

/-- C6 counterexample: when the priority-5 job fails and is retried,
it is pushed to the back of the whole queue with no re-sort, ending
up BEHIND the waiting priority-1 job; the worker dequeues the front,
so the lower-priority job runs first — the retried job is not
re-inserted at the back of its own priority tier. -/
theorem c6_counterexample :
    ((processJobWith (errBody c6State.cfg c6High) 0 c6State c6High).queue.map (·.priority) =
        [1, 5]) ∧
    ((processJobWith (errBody c6State.cfg c6High) 0 c6State c6High).queue.map (·.state) =
        [JobState.waiting, JobState.waiting]) ∧
    (((processJobWith (errBody c6State.cfg c6High) 0 c6State c6High).queue.head?).map
        (·.priority) = some 1) := by decide

/-- C6 (amended): when the retry policy permits a retry, the job is
re-marked `waiting` and appended via `this.queue.push(job)` to the
back of the ENTIRE queue, regardless of priority; priority order is
restored only when a later `add*Job` re-sorts the array. -/
theorem c6_retry_appends_to_back {o : BodyOutcome} {e : String}
    (he : o.result = .error e) (now : Nat) (q : QueueState) (j : Job)
    (h : j.attempts + 1 < j.maxAttempts) :
    (processJobWith o now q j).queue =
      q.queue ++ [{ j with
                    state := JobState.waiting
                    attempts := j.attempts + 1
                    processedAt := some now
                    progress := o.progress }] :=
  processJobWith_retry_queue he now q j h

/-- C6 witness: the amended theorem at the concrete scenario. -/
theorem c6_witness :
    (processJobWith (errBody c6State.cfg c6High) 0 c6State c6High).queue =
      c6State.queue ++ [{ c6High with
                          state := JobState.waiting
                          attempts := 1
                          processedAt := some 0
                          progress := 0 }] :=
  c6_retry_appends_to_back rfl 0 c6State c6High (by decide)

/-- C7: with the real job body (which never throws), every reachable
waiting queue is sorted by descending priority with FIFO (id-order)
tie-break — the worker always shifts the front, so dequeue order
follows that order — and in the concrete scenario of jobs enqueued
with priorities [1, 5, 3], the jobs complete in the order of ids
[2, 3, 1], i.e. priorities [5, 3, 1] (the completed history is
newest-first). -/
theorem c7_priority_fifo :
    (∀ (env : Env) (cfg0 : EmailConfig) (ops : List QueueOp),
        (runQueue (fun cfg job => runJobBody env cfg job)
          (initialQueueState cfg0) ops).queue.Pairwise queueLE) ∧
    ((runQueue (fun cfg job => runJobBody okEnv cfg job)
        (initialQueueState ⟨[sampleAccount 1 0], 0⟩)
        [QueueOp.addSingle { toAddr := "x1", subject := "s" } 1 0,
         QueueOp.addSingle { toAddr := "x2", subject := "s" } 5 1,
         QueueOp.addSingle { toAddr := "x3", subject := "s" } 3 2,
         QueueOp.work 3, QueueOp.work 4, QueueOp.work 5]).completedHistory = [1, 3, 2]) := by
  constructor
  · intro env cfg0 ops
    refine (runQueue_queueInv _ (fun cfg job => runJobBody_ok env cfg job) ops
      (initialQueueState cfg0) ⟨List.Pairwise.nil, ?_⟩).1
    intro j hj
    cases hj
  · decide

/-- C8: under any job-body behavior (including bodies that always
throw) and any operation sequence, every job record that reaches
state `failed` satisfies `attempts ≤ maxAttempts`; moreover each pass
through the processor increments `attempts` by exactly one. -/
theorem c8_attempts_bounded (body : EmailConfig → Job → BodyOutcome) (ops : List QueueOp)
    (cfg0 : EmailConfig) :
    (∀ p ∈ (runQueue body (initialQueueState cfg0) ops).jobs,
        p.2.state = JobState.failed → p.2.attempts ≤ p.2.maxAttempts) ∧
    (∀ (o : BodyOutcome) (now : Nat) (q : QueueState) (j j' : Job),
        lookupJob (processJobWith o now q j).jobs j.id = some j' →
        j'.attempts = j.attempts + 1) := by
  constructor
  · have h := runQueue_jobsOK body ops (initialQueueState cfg0)
      ⟨fun p hp => (by cases hp), fun j hj => (by cases hj)⟩
    intro p hp hf
    exact (h.1 p hp).2 hf
  · intro o now q j j' hl
    obtain ⟨j'', hj'', ha⟩ := processJobWith_attempts o now q j
    rw [hl] at hj''
    cases hj''
    exact ha

/-- The operations of the C8 witness run: one job, three worker
passes with a body that always throws. -/
def c8Ops : List QueueOp :=
  [QueueOp.addSingle { toAddr := "r@x", subject := "s" } 0 0,
   QueueOp.work 1, QueueOp.work 2, QueueOp.work 3]

/-- The job record after the C8 witness run: failed at
`attempts = maxAttempts = 3`. -/
def c8FailedJob : Job :=
  { id := 1
    data := .single { toAddr := "r@x", subject := "s" }
    state := JobState.failed
    progress := 0
    createdAt := 0
    priority := 0
    attempts := 3
    maxAttempts := 3
    processedAt := some 3
    finishedAt := some 3
    result := some (.errorResult "SMTP connection failed") }

/-- C8 witness: the failed job of the concrete run respects the
bound. -/
theorem c8_witness : c8FailedJob.attempts ≤ c8FailedJob.maxAttempts :=
  (c8_attempts_bounded errBody c8Ops ⟨[sampleAccount 1 0], 0⟩).1
    (1, c8FailedJob) (by decide) (by decide)

/-- C9 counterexample: pause the queue while the single worker is
suspended inside its loop body, then resume: `resumeQueue` sees
`isProcessing = false` and spawns a second loop, while the first
worker — still live — later re-reads `isProcessing = true` and keeps
running: two concurrently running workers. -/
theorem c9_counterexample :
    ((runSys initialWorkerSys
        [SysEvent.stepWorker 0, SysEvent.pause, SysEvent.resume]).workers.length = 2) ∧
    ((runSys initialWorkerSys
        [SysEvent.stepWorker 0, SysEvent.pause, SysEvent.resume]).isProcessing = true) := by
  decide

/-- C9 (amended): `pauseQueue` and `resumeQueue` are idempotent, and
`resumeQueue` starts a new loop only when `isProcessing` is clear;
but the flag does not track whether the previous loop has exited, so
the single-worker property holds only for schedules in which resume
is invoked once no worker task is live (after the paused worker has
observed the cleared flag and returned). -/
theorem c9_single_worker_under_discipline :
    (∀ s : WorkerSys,
        stepSys (stepSys s SysEvent.pause) SysEvent.pause = stepSys s SysEvent.pause) ∧
    (∀ s : WorkerSys,
        stepSys (stepSys s SysEvent.resume) SysEvent.resume = stepSys s SysEvent.resume) ∧
    (∀ (s : WorkerSys) (es : List SysEvent),
        s.workers.length ≤ 1 → safeTrace s es = true →
        (runSys s es).workers.length ≤ 1) := by
  refine ⟨?_, ?_, ?_⟩
  · intro s
    rfl
  · intro s
    by_cases h : s.isProcessing
    · simp [stepSys, h]
    · simp [stepSys, h]
  · intro s es
    induction es generalizing s with
    | nil => intro hlen _; exact hlen
    | cons e rest ih =>
        intro hlen hsafe
        rw [safeTrace] at hsafe
        simp only [Bool.and_eq_true] at hsafe
        obtain ⟨h1, h2⟩ := hsafe
        refine ih (stepSys s e) ?_ h2
        cases e with
        | pause => exact hlen
        | resume =>
            by_cases hp : s.isProcessing
            · simpa [stepSys, hp] using hlen
            · have hw : s.workers = [] := by
                simp only [Bool.or_eq_true] at h1
                rcases h1 with hfalse | hdec
                · simp at hfalse
                · exact of_decide_eq_true hdec
              simp [stepSys, hp, hw]
        | stepWorker i =>
            simp only [stepSys]
            split
            · exact hlen
            · split
              · simpa using hlen
              · have := List.length_eraseIdx_le s.workers i
                simp only
                omega
            · simpa using hlen

/-- C9 witness: a disciplined pause/exit/resume schedule keeps at
most one live worker. -/
theorem c9_witness :
    (runSys initialWorkerSys
      [SysEvent.pause, SysEvent.stepWorker 0, SysEvent.resume,
       SysEvent.stepWorker 0]).workers.length ≤ 1 :=
  c9_single_worker_under_discipline.2.2 initialWorkerSys
    [SysEvent.pause, SysEvent.stepWorker 0, SysEvent.resume, SysEvent.stepWorker 0]
    (by decide) (by decide)

end StrongBody
